import Mathlib

/-!
Shallow embedding of the double-entry bookkeeping core of the drif-ai/finance
repository: the period-financial aggregation engine `calculatePeriodFinancials`
(src/utils/helpers.ts) and the account-balance mutation logic of
`addTransactionsBatch` / `deleteTransaction` / `addAccount`
(src/contexts/DataContext.tsx), together with the transaction-form guard
(src/features/Transactions.tsx).  JavaScript numbers are embedded as `ℚ`,
JavaScript `Map`s as insertion-ordered association lists, and JavaScript
string comparison as lexicographic comparison of character lists.
-/

namespace Finance

/-- The closed account-type enum of types.ts (`'Aset' | 'Liabilitas' | 'Modal'
| 'Pendapatan' | 'Beban'`). -/
inductive AccountType where
  | aset
  | liabilitas
  | modal
  | pendapatan
  | beban
deriving DecidableEq, Repr

/-- The `Account` interface of types.ts. -/
structure Account where
  id : Option String
  code : String
  name : String
  type : AccountType
  balance : ℚ
  description : String
deriving DecidableEq, Repr

/-- The `JournalEntry` interface of types.ts. -/
structure JournalEntry where
  id : Option String
  transaction_id : Option String
  account_code : String
  debit : ℚ
  credit : ℚ
deriving DecidableEq, Repr

/-- The `Transaction` interface of types.ts. -/
structure Transaction where
  id : Option String
  date : String
  ref : String
  description : String
  entries : List JournalEntry
deriving DecidableEq, Repr

/-- The reporting period `{start, end}` passed to `calculatePeriodFinancials`. -/
structure Period where
  start : String
  stop : String
deriving DecidableEq, Repr

/-! ### String utilities

JavaScript compares strings code unit by code unit; on the ASCII dates and
names used here that is exactly lexicographic comparison of the character
lists.  `name.toLowerCase().includes(pat)` is embedded by lower-casing the
character list and scanning for an occurrence of `pat`. -/

/-- Lexicographic strict comparison of character lists (JavaScript `<` on
strings). -/
def charsLt : List Char → List Char → Bool
  | [], [] => false
  | [], _ :: _ => true
  | _ :: _, [] => false
  | a :: as, b :: bs => if a < b then true else if b < a then false else charsLt as bs

/-- JavaScript `s < t` on strings. -/
def strLt (s t : String) : Bool := charsLt s.data t.data

/-- JavaScript `s <= t` on strings (`¬ (t < s)`). -/
def strLe (s t : String) : Bool := !(strLt t s)

/-- `pre` is a prefix of `l` (boolean). -/
def charsPre : List Char → List Char → Bool
  | [], _ => true
  | _ :: _, [] => false
  | a :: as, b :: bs => a == b && charsPre as bs

/-- `containsSub hay pat`: `pat` occurs as a contiguous run inside `hay`
(JavaScript `hay.includes(pat)`). -/
def containsSub : List Char → List Char → Bool
  | [], pat => pat.isEmpty
  | c :: t, pat => charsPre pat (c :: t) || containsSub t pat

/-- ASCII lower-casing of a string, as a character list (JavaScript
`s.toLowerCase()` on the names appearing in this data). -/
def lowerStr (s : String) : List Char := s.data.map Char.toLower

/-- `name.toLowerCase().includes(pat)` with `pat` a lower-case literal. -/
def nameHas (name : String) (pat : String) : Bool :=
  containsSub (lowerStr name) pat.data

/-! ### JavaScript `Map<string, number>` as an insertion-ordered association
list. `set` replaces the value of an existing key in place and appends fresh
keys at the end, exactly like the JavaScript `Map`. `get(k) || 0` reads a key
with default `0`. -/

/-- A `Map<string, number>` snapshot. -/
abbrev QMap := List (String × ℚ)

/-- `m.get(k)`, as an `Option`. -/
def mapFind (m : QMap) (k : String) : Option ℚ :=
  (m.find? (fun p => p.1 == k)).map Prod.snd

/-- `m.get(k) || 0`. -/
def mapGetD (m : QMap) (k : String) : ℚ :=
  (mapFind m k).getD 0

/-- `m.set(k, v)`. -/
def mapSet : QMap → String → ℚ → QMap
  | [], k, v => [(k, v)]
  | p :: m, k, v => if p.1 == k then (k, v) :: m else p :: mapSet m k v

/-- The keys of the map, in insertion order. -/
def mapKeys (m : QMap) : List String := m.map Prod.fst

/-! ### `calculatePeriodFinancials` (src/utils/helpers.ts, lines 92–158)

Each `let`-bound intermediate of the source function becomes a named
definition; `calculatePeriodFinancials` assembles the returned object. -/

/-- `new Map(accounts.map(a => [a.code, 0]))`. -/
def mapInit (accounts : List Account) : QMap :=
  accounts.foldl (fun m a => mapSet m a.code 0) []

/-- One step of the inner `forEach`: add `e.debit - e.credit` to the entry's
account code. -/
def addEntryChange (m : QMap) (e : JournalEntry) : QMap :=
  mapSet m e.account_code (mapGetD m e.account_code + (e.debit - e.credit))

/-- `tx.entries.forEach(...)`: accumulate one transaction's entries. -/
def addTxEntries (m : QMap) (tx : Transaction) : QMap :=
  tx.entries.foldl addEntryChange m

/-- `transactions.filter(tx => tx.date >= period.start && tx.date <= period.end)`. -/
def inPeriodTxs (transactions : List Transaction) (period : Period) : List Transaction :=
  transactions.filter (fun tx => strLe period.start tx.date && strLe tx.date period.stop)

/-- `transactions.filter(tx => tx.date < period.start)`. -/
def beforeTxs (transactions : List Transaction) (period : Period) : List Transaction :=
  transactions.filter (fun tx => strLt tx.date period.start)

/-- Step 1 of the source: balance changes within the period, keyed by account
code, in raw debit-positive terms. -/
def periodChangesMap (accounts : List Account) (transactions : List Transaction)
    (period : Period) : QMap :=
  (inPeriodTxs transactions period).foldl addTxEntries (mapInit accounts)

/-- Step 2 of the source: opening balances, i.e. the same accumulation over
transactions dated strictly before the period start. -/
def openingBalancesMap (accounts : List Account) (transactions : List Transaction)
    (period : Period) : QMap :=
  (beforeTxs transactions period).foldl addTxEntries (mapInit accounts)

/-- Step 4 of the source: `closingBalances.set(a.code, opening + change)` over
a fresh map. -/
def closingOf (accounts : List Account) (ob pc : QMap) : QMap :=
  accounts.foldl (fun m a => mapSet m a.code (mapGetD ob a.code + mapGetD pc a.code)) []

/-- `closingBalances` as computed from `accounts`, `transactions`, `period`. -/
def closingBalancesMap (accounts : List Account) (transactions : List Transaction)
    (period : Period) : QMap :=
  closingOf accounts (openingBalancesMap accounts transactions period)
    (periodChangesMap accounts transactions period)

/-- `revenues`: Pendapatan accounts with balance `-(periodChanges.get(code) || 0)`. -/
def revenuesList (accounts : List Account) (transactions : List Transaction)
    (period : Period) : List Account :=
  (accounts.filter (fun a => decide (a.type = .pendapatan))).map
    (fun a => { a with balance := -(mapGetD (periodChangesMap accounts transactions period) a.code) })

/-- `expenses`: Beban accounts with balance `periodChanges.get(code) || 0`. -/
def expensesList (accounts : List Account) (transactions : List Transaction)
    (period : Period) : List Account :=
  (accounts.filter (fun a => decide (a.type = .beban))).map
    (fun a => { a with balance := mapGetD (periodChangesMap accounts transactions period) a.code })

/-- `totalRevenue = revenues.reduce((s, a) => s + a.balance, 0)`. -/
def totalRevenue (accounts : List Account) (transactions : List Transaction)
    (period : Period) : ℚ :=
  ((revenuesList accounts transactions period).map (fun a => a.balance)).sum

/-- `totalExpense = expenses.reduce((s, a) => s + a.balance, 0)`. -/
def totalExpense (accounts : List Account) (transactions : List Transaction)
    (period : Period) : ℚ :=
  ((expensesList accounts transactions period).map (fun a => a.balance)).sum

/-- `netIncome = totalRevenue - totalExpense`. -/
def netIncome (accounts : List Account) (transactions : List Transaction)
    (period : Period) : ℚ :=
  totalRevenue accounts transactions period - totalExpense accounts transactions period

/-- `assets`: Aset accounts with balance `closingBalances.get(code) || 0`. -/
def assetsList (accounts : List Account) (transactions : List Transaction)
    (period : Period) : List Account :=
  (accounts.filter (fun a => decide (a.type = .aset))).map
    (fun a => { a with balance := mapGetD (closingBalancesMap accounts transactions period) a.code })

/-- `liabilities`: Liabilitas accounts with balance `-(closingBalances.get(code) || 0)`. -/
def liabilitiesList (accounts : List Account) (transactions : List Transaction)
    (period : Period) : List Account :=
  (accounts.filter (fun a => decide (a.type = .liabilitas))).map
    (fun a => { a with balance := -(mapGetD (closingBalancesMap accounts transactions period) a.code) })

/-- `equity`: Modal accounts with balance `-(closingBalances.get(code) || 0)`. -/
def equityList (accounts : List Account) (transactions : List Transaction)
    (period : Period) : List Account :=
  (accounts.filter (fun a => decide (a.type = .modal))).map
    (fun a => { a with balance := -(mapGetD (closingBalancesMap accounts transactions period) a.code) })

/-- `equityWithPL`: net income is added to the balance of the account with the
reserved code `'3200'`. -/
def equityWithPLList (accounts : List Account) (transactions : List Transaction)
    (period : Period) : List Account :=
  (equityList accounts transactions period).map
    (fun a => if a.code == "3200"
      then { a with balance := a.balance + netIncome accounts transactions period } else a)

/-- `totalAssets`: asset balances summed, with the balance negated for any
asset whose lower-cased name contains `'akumulasi'`. -/
def totalAssets (accounts : List Account) (transactions : List Transaction)
    (period : Period) : ℚ :=
  ((assetsList accounts transactions period).map
    (fun a => if nameHas a.name "akumulasi" then -(a.balance) else a.balance)).sum

/-- `totalLiabilities`. -/
def totalLiabilities (accounts : List Account) (transactions : List Transaction)
    (period : Period) : ℚ :=
  ((liabilitiesList accounts transactions period).map (fun a => a.balance)).sum

/-- `totalEquity`. -/
def totalEquity (accounts : List Account) (transactions : List Transaction)
    (period : Period) : ℚ :=
  ((equityList accounts transactions period).map (fun a => a.balance)).sum

/-- `totalEquityWithPL`. -/
def totalEquityWithPL (accounts : List Account) (transactions : List Transaction)
    (period : Period) : ℚ :=
  ((equityWithPLList accounts transactions period).map (fun a => a.balance)).sum

/-- `totalLiabilitiesAndEquity = totalLiabilities + totalEquityWithPL`. -/
def totalLiabilitiesAndEquity (accounts : List Account) (transactions : List Transaction)
    (period : Period) : ℚ :=
  totalLiabilities accounts transactions period + totalEquityWithPL accounts transactions period

/-- Codes of Aset accounts whose lower-cased name contains `'kas'` or `'bank'`. -/
def cashAccountCodes (accounts : List Account) : List String :=
  (accounts.filter (fun a =>
    decide (a.type = .aset) && (nameHas a.name "kas" || nameHas a.name "bank"))).map
    (fun a => a.code)

/-- The simplified cash-flow summary of the report. -/
structure CashFlow where
  startCash : ℚ
  endCash : ℚ
  netChange : ℚ
deriving DecidableEq, Repr

/-- The object returned by `calculatePeriodFinancials`. -/
structure FinReport where
  revenues : List Account
  totalRevenue : ℚ
  expenses : List Account
  totalExpense : ℚ
  netIncome : ℚ
  assets : List Account
  totalAssets : ℚ
  liabilities : List Account
  totalLiabilities : ℚ
  equity : List Account
  totalEquity : ℚ
  equityWithPL : List Account
  totalEquityWithPL : ℚ
  totalLiabilitiesAndEquity : ℚ
  isBalanced : Bool
  cashFlow : CashFlow
deriving DecidableEq, Repr

/-- `calculatePeriodFinancials(accounts, transactions, period)`
(src/utils/helpers.ts, lines 92–158). -/
def calculatePeriodFinancials (accounts : List Account) (transactions : List Transaction)
    (period : Period) : FinReport :=
  let startCash := ((cashAccountCodes accounts).map
    (fun c => mapGetD (openingBalancesMap accounts transactions period) c)).sum
  let endCash := ((cashAccountCodes accounts).map
    (fun c => mapGetD (closingBalancesMap accounts transactions period) c)).sum
  { revenues := revenuesList accounts transactions period
    totalRevenue := totalRevenue accounts transactions period
    expenses := expensesList accounts transactions period
    totalExpense := totalExpense accounts transactions period
    netIncome := netIncome accounts transactions period
    assets := assetsList accounts transactions period
    totalAssets := totalAssets accounts transactions period
    liabilities := liabilitiesList accounts transactions period
    totalLiabilities := totalLiabilities accounts transactions period
    equity := equityList accounts transactions period
    totalEquity := totalEquity accounts transactions period
    equityWithPL := equityWithPLList accounts transactions period
    totalEquityWithPL := totalEquityWithPL accounts transactions period
    totalLiabilitiesAndEquity := totalLiabilitiesAndEquity accounts transactions period
    isBalanced := decide (|totalAssets accounts transactions period -
      totalLiabilitiesAndEquity accounts transactions period| < 1/100)
    cashFlow := { startCash := startCash, endCash := endCash, netChange := endCash - startCash } }

/-! ### Account Mutation Applier (src/contexts/DataContext.tsx)

`addTransactionsBatch` (lines 206–247) nets each transaction's entries into a
per-account-code delta map and applies each delta through the
`update_account_balance` remote procedure; `deleteTransaction` (lines
255–279) does the same with the sign of every entry's contribution flipped. -/

/-- `account.type === 'Aset' && account.name.toLowerCase().includes('akumulasi
penyusutan')` — the contra-asset test of the mutation applier. -/
def isContraAsset (a : Account) : Bool :=
  decide (a.type = .aset) && nameHas a.name "akumulasi penyusutan"

/-- The signed contribution of one entry to its account's balance delta:
`debit - credit` for a debit-normal account (Aset or Beban, except
contra-assets), `credit - debit` otherwise. -/
def entryDelta (a : Account) (e : JournalEntry) : ℚ :=
  if (decide (a.type = .aset) || decide (a.type = .beban)) && !(isContraAsset a)
  then e.debit - e.credit
  else e.credit - e.debit

/-- `accounts.find(a => a.code === entry.account_code)`. -/
def findAccount (accounts : List Account) (code : String) : Option Account :=
  accounts.find? (fun a => a.code == code)

/-- One step of the `entries.forEach` loop in `addTransactionsBatch`:
look up the entry's account; if absent, skip; otherwise add the entry's
signed delta to the account code's accumulated change. -/
def addDeltaStep (accounts : List Account) (m : QMap) (e : JournalEntry) : QMap :=
  match findAccount accounts e.account_code with
  | none => m
  | some a => mapSet m e.account_code (mapGetD m e.account_code + entryDelta a e)

/-- The netted per-account-code delta map built by `addTransactionsBatch` for
one transaction's entries (`accountUpdates`). -/
def creationDeltas (accounts : List Account) (entries : List JournalEntry) : QMap :=
  entries.foldl (addDeltaStep accounts) []

/-- One step of the `entries.forEach` loop in `deleteTransaction`: as in
creation but the delta is subtracted. -/
def delDeltaStep (accounts : List Account) (m : QMap) (e : JournalEntry) : QMap :=
  match findAccount accounts e.account_code with
  | none => m
  | some a => mapSet m e.account_code (mapGetD m e.account_code - entryDelta a e)

/-- The netted per-account-code delta map built by `deleteTransaction` for the
deleted transaction's entries. -/
def deletionDeltas (accounts : List Account) (entries : List JournalEntry) : QMap :=
  entries.foldl (delDeltaStep accounts) []

/-- Modelled from the spec: the remote `update_account_balance(p_code,
p_amount)` procedure, which is not under src/ (only its call sites are), adds
`p_amount` atomically to the persisted balance of the account whose code is
`p_code`. -/
def updateAccountBalance (accounts : List Account) (code : String) (amount : ℚ) :
    List Account :=
  accounts.map (fun a => if a.code == code then { a with balance := a.balance + amount } else a)

/-- Apply every delta of the map, one `update_account_balance` call per map
entry. -/
def applyDeltas (accounts : List Account) (m : QMap) : List Account :=
  m.foldl (fun accs p => updateAccountBalance accs p.1 p.2) accounts

/-- The data of one transaction to create, as passed to
`addTransactionsBatch` (`NewTransactionData`). -/
structure NewTxData where
  date : String
  ref : String
  description : String
  entries : List JournalEntry
deriving DecidableEq, Repr

/-- The transaction persisted for one batch item. -/
def persistTx (d : NewTxData) : Transaction :=
  { id := none, date := d.date, ref := d.ref, description := d.description,
    entries := d.entries }

/-- `addTransactionsBatch` (lines 206–247), restricted to its persistent
effect: each batch item's transaction is inserted unconditionally, its entries
are netted into per-account deltas, and the deltas are applied to the account
balances.  The function performs no balance validation. -/
def addTransactionsBatch (accounts : List Account) (transactions : List Transaction)
    (batch : List NewTxData) : List Account × List Transaction :=
  batch.foldl
    (fun st d =>
      (applyDeltas st.1 (creationDeltas st.1 d.entries), st.2 ++ [persistTx d]))
    (accounts, transactions)

/-! ### Transaction form guard (src/features/Transactions.tsx, lines 132–171) -/

/-- `totals.debit` over the form's entry rows. -/
def formTotalDebit (entries : List JournalEntry) : ℚ :=
  (entries.map (fun e => e.debit)).sum

/-- `totals.credit` over the form's entry rows. -/
def formTotalCredit (entries : List JournalEntry) : ℚ :=
  (entries.map (fun e => e.credit)).sum

/-- `isBalanced: totals.debit > 0 && totals.debit === totals.credit`. -/
def formIsBalanced (entries : List JournalEntry) : Bool :=
  decide (0 < formTotalDebit entries) &&
    decide (formTotalDebit entries = formTotalCredit entries)

/-- `handleSubmit` for a new transaction: if the form totals are unbalanced
(or zero) it alerts and returns without mutating anything (`none`); otherwise
it submits the valid entries (rows with an account code and a positive debit
or credit) to `addTransaction`. -/
def handleSubmitCreate (entries : List JournalEntry) : Option (List JournalEntry) :=
  if formIsBalanced entries
  then some (entries.filter (fun e => !(e.account_code == "") &&
    (decide (0 < e.debit) || decide (0 < e.credit))))
  else none

/-! ### `addAccount` opening-balance seeding (src/contexts/DataContext.tsx,
lines 166–187) -/

/-- The first seed entry synthesized by `addAccount`: the new account on its
normal side (`isDebitNormal` is `type === 'Aset' || type === 'Beban'`). -/
def seedFirst (newAccount : Account) (openingBalance : ℚ) : JournalEntry :=
  { id := none, transaction_id := none, account_code := newAccount.code,
    debit := if decide (newAccount.type = .aset) || decide (newAccount.type = .beban)
      then openingBalance else 0,
    credit := if !(decide (newAccount.type = .aset) || decide (newAccount.type = .beban))
      then openingBalance else 0 }

/-- The second seed entry: the reserved counter-account `'3999'` on the
opposite side. -/
def seedSecond (newAccount : Account) (openingBalance : ℚ) : JournalEntry :=
  { id := none, transaction_id := none, account_code := "3999",
    debit := if !(decide (newAccount.type = .aset) || decide (newAccount.type = .beban))
      then openingBalance else 0,
    credit := if decide (newAccount.type = .aset) || decide (newAccount.type = .beban)
      then openingBalance else 0 }

/-- The two seed entries synthesized by `addAccount` for a nonzero opening
balance. -/
def seedEntries (newAccount : Account) (openingBalance : ℚ) : List JournalEntry :=
  [seedFirst newAccount openingBalance, seedSecond newAccount openingBalance]

/-- The opening-balance transaction synthesized by `addAccount`, dated
`today`. -/
def seedTransaction (newAccount : Account) (openingBalance : ℚ) (today : String) :
    Transaction :=
  { id := none, date := today,
    ref := "SALDO-AWAL",
    description := "Saldo Awal untuk Akun " ++ newAccount.code,
    entries := seedEntries newAccount openingBalance }

/-- `addAccount` (lines 166–187): the account row is inserted with balance
`0`; when the requested opening balance is nonzero, exactly one seeding
transaction is created through `addTransaction`/`addTransactionsBatch`.  That
applier resolves each entry via `accounts.find(...)` against the provider's
closure-captured PRE-insert state — `addAccountsBatch` only writes to the
remote table and leaves the in-memory state to the realtime subscription — so
the delta map is computed over `accounts` without the new account, while the
resulting `update_account_balance` calls act on the persisted rows, which do
include it.  Returns the resulting accounts and the synthesized
transactions. -/
def addAccount (accounts : List Account) (code name : String) (type : AccountType)
    (description : String) (openingBalance : ℚ) (today : String) :
    List Account × List Transaction :=
  let newAccount : Account :=
    { id := none, code := code, name := name, type := type, balance := 0,
      description := description }
  let accounts1 := accounts ++ [newAccount]
  if openingBalance = 0 then (accounts1, [])
  else
    (applyDeltas accounts1 (creationDeltas accounts (seedEntries newAccount openingBalance)),
      [seedTransaction newAccount openingBalance today])

/-- The persisted balance of the account with the given code, if any. -/
def balanceOf (accounts : List Account) (code : String) : Option ℚ :=
  (findAccount accounts code).map (fun a => a.balance)

/-! ### Specification-side summation forms

These express the raw per-code sums the spec describes; the lemmas below
connect them to the map-building folds of the source. -/

/-- All journal entries of a list of transactions, in order. -/
def txsEntries (transactions : List Transaction) : List JournalEntry :=
  (transactions.map (fun tx => tx.entries)).flatten

/-- Raw debit-positive change of one account code over a list of entries:
the sum of `debit - credit` over the entries carrying that code. -/
def entriesChange (es : List JournalEntry) (c : String) : ℚ :=
  ((es.filter (fun e => decide (e.account_code = c))).map (fun e => e.debit - e.credit)).sum

/-- Total debits of a list of entries. -/
def sumDebits (es : List JournalEntry) : ℚ := (es.map (fun e => e.debit)).sum

/-- Total credits of a list of entries. -/
def sumCredits (es : List JournalEntry) : ℚ := (es.map (fun e => e.credit)).sum

/-- The netted signed delta the mutation applier owes an account `a` from a
list of entries, per the normal-balance formula. -/
def nettedDelta (a : Account) (es : List JournalEntry) : ℚ :=
  ((es.filter (fun e => decide (e.account_code = a.code))).map (fun e => entryDelta a e)).sum

/-- Negate every value of a delta map. -/
def negMap (m : QMap) : QMap := m.map (fun p => (p.1, -p.2))

/-- Sum of the values stored under a key (equals `mapGetD` when keys are
unique). -/
def deltaSum (m : QMap) (c : String) : ℚ :=
  ((m.filter (fun p => decide (p.1 = c))).map Prod.snd).sum

/-- The contribution of one entry to the applier's delta map: the signed
delta when the entry's account exists, `0` when the entry is skipped. -/
def deltaVal (accounts : List Account) (e : JournalEntry) : ℚ :=
  match findAccount accounts e.account_code with
  | none => 0
  | some a => entryDelta a e

/-! ### Concrete data used by witnesses and counterexamples -/

/-- A cash-like asset account. -/
def acctKas : Account :=
  { id := none, code := "1200", name := "Bank", type := .aset, balance := 0, description := "" }

/-- A liability account. -/
def acctLiab : Account :=
  { id := none, code := "2100", name := "Utang Dagang", type := .liabilitas, balance := 0,
    description := "" }

/-- The retained-earnings equity account with the reserved code `3200`. -/
def acctModal : Account :=
  { id := none, code := "3200", name := "Laba Ditahan", type := .modal, balance := 0,
    description := "" }

/-- A revenue account. -/
def acctRev : Account :=
  { id := none, code := "4100", name := "Pendapatan Jasa", type := .pendapatan, balance := 0,
    description := "" }

/-- An expense account. -/
def acctBeban : Account :=
  { id := none, code := "5200", name := "Beban Gaji", type := .beban, balance := 0,
    description := "" }

/-- A plain fixed-asset account. -/
def acctPeralatan : Account :=
  { id := none, code := "1501", name := "Peralatan Kantor", type := .aset, balance := 0,
    description := "" }

/-- A contra-asset account (name contains `akumulasi penyusutan`). -/
def acctAkum : Account :=
  { id := none, code := "1601", name := "Akumulasi Penyusutan Peralatan", type := .aset,
    balance := 0, description := "" }

/-- The depreciation-expense account of the contra scenario. -/
def acctBebanDep : Account :=
  { id := none, code := "5401", name := "Beban Penyusutan", type := .beban, balance := 0,
    description := "" }

/-- An Asset account whose name contains `akumulasi` but not
`akumulasi penyusutan`. -/
def acctAmort : Account :=
  { id := none, code := "1701", name := "Akumulasi Amortisasi Lisensi", type := .aset,
    balance := 0, description := "" }

/-- A balanced revenue transaction dated inside the reporting year. -/
def txSimple : Transaction :=
  { id := none, date := "2024-01-15", ref := "", description := "penjualan", entries := [
    { id := none, transaction_id := none, account_code := "1200", debit := 1000000, credit := 0 },
    { id := none, transaction_id := none, account_code := "4100", debit := 0, credit := 1000000 } ] }

/-- The depreciation transaction of the contra-asset scenario: debit the
expense account, credit the contra asset by 100,000. -/
def txDep : Transaction :=
  { id := none, date := "2024-03-01", ref := "", description := "penyusutan", entries := [
    { id := none, transaction_id := none, account_code := "5401", debit := 100000, credit := 0 },
    { id := none, transaction_id := none, account_code := "1601", debit := 0, credit := 100000 } ] }

/-- The calendar-year 2024 reporting period. -/
def perYear : Period := { start := "2024-01-01", stop := "2024-12-31" }

/-- An unbalanced entry list (debits 500,000, credits 400,000). -/
def entriesUnbalanced : List JournalEntry := [
  { id := none, transaction_id := none, account_code := "1200", debit := 500000, credit := 0 },
  { id := none, transaction_id := none, account_code := "4100", debit := 0, credit := 400000 } ]

/-- A batch carrying the unbalanced entry list. -/
def batchUnbalanced : List NewTxData :=
  [ { date := "2024-02-02", ref := "", description := "impor", entries := entriesUnbalanced } ]

/-- A transaction crediting the `akumulasi`-but-not-`penyusutan` asset
account by 100. -/
def txAmort : Transaction :=
  { id := none, date := "2024-03-02", ref := "", description := "amortisasi", entries := [
    { id := none, transaction_id := none, account_code := "5401", debit := 100, credit := 0 },
    { id := none, transaction_id := none, account_code := "1701", debit := 0, credit := 100 } ] }

/-- A balanced transaction whose entries reference only unknown account
codes. -/
def txUnknown : Transaction :=
  { id := none, date := "2024-06-01", ref := "", description := "tak dikenal", entries := [
    { id := none, transaction_id := none, account_code := "9999", debit := 250, credit := 0 },
    { id := none, transaction_id := none, account_code := "9998", debit := 0, credit := 250 } ] }

/-- A single entry referencing an unknown account code. -/
def entryUnknown : JournalEntry :=
  { id := none, transaction_id := none, account_code := "9999", debit := 250, credit := 0 }

/-! ### Association-map lemmas -/

lemma mapFind_cons (p : String × ℚ) (m : QMap) (c : String) :
    mapFind (p :: m) c = if p.1 = c then some p.2 else mapFind m c := by
  by_cases h : p.1 = c
  · simp [mapFind, List.find?_cons_of_pos, h]
  · simp only [mapFind, h, if_false]
    rw [List.find?_cons_of_neg]
    simp [h]

lemma mapGetD_cons (p : String × ℚ) (m : QMap) (c : String) :
    mapGetD (p :: m) c = if p.1 = c then p.2 else mapGetD m c := by
  by_cases h : p.1 = c <;> simp [mapGetD, mapFind_cons, h]

lemma mapFind_mapSet (m : QMap) (k : String) (v : ℚ) (c : String) :
    mapFind (mapSet m k v) c = if k = c then some v else mapFind m c := by
  induction m with
  | nil => simp [mapSet, mapFind_cons, mapFind]
  | cons p m ih =>
    by_cases h : p.1 = k
    · simp only [mapSet, h, beq_self_eq_true, if_true]
      by_cases hkc : k = c <;> simp [mapFind_cons, hkc, h]
    · have hb : (p.1 == k) = false := by simp [h]
      simp only [mapSet, hb, Bool.false_eq_true, if_false]
      by_cases hkc : k = c <;> by_cases hpc : p.1 = c <;>
        simp_all [mapFind_cons, ih]

lemma mapGetD_mapSet (m : QMap) (k : String) (v : ℚ) (c : String) :
    mapGetD (mapSet m k v) c = if k = c then v else mapGetD m c := by
  by_cases h : k = c <;> simp [mapGetD, mapFind_mapSet, h]

lemma mapKeys_cons (p : String × ℚ) (m : QMap) :
    mapKeys (p :: m) = p.1 :: mapKeys m := rfl

lemma mem_mapKeys_mapSet (m : QMap) (k : String) (v : ℚ) (c : String) :
    c ∈ mapKeys (mapSet m k v) ↔ c ∈ mapKeys m ∨ c = k := by
  induction m with
  | nil => simp [mapSet, mapKeys]
  | cons p m ih =>
    by_cases h : p.1 = k
    · subst h
      simp only [mapSet, beq_self_eq_true, if_true, mapKeys_cons, List.mem_cons]
      tauto
    · have hb : (p.1 == k) = false := by simp [h]
      simp only [mapSet, hb, Bool.false_eq_true, if_false, mapKeys_cons, List.mem_cons, ih]
      tauto

lemma nodup_mapKeys_mapSet (m : QMap) (k : String) (v : ℚ)
    (h : (mapKeys m).Nodup) : (mapKeys (mapSet m k v)).Nodup := by
  induction m with
  | nil => simp [mapSet, mapKeys]
  | cons p m ih =>
    rw [mapKeys_cons, List.nodup_cons] at h
    by_cases hpk : p.1 = k
    · simp only [mapSet, hpk, beq_self_eq_true, if_true, mapKeys_cons, List.nodup_cons]
      exact ⟨hpk ▸ h.1, h.2⟩
    · have hb : (p.1 == k) = false := by simp [hpk]
      simp only [mapSet, hb, Bool.false_eq_true, if_false, mapKeys_cons, List.nodup_cons]
      refine ⟨?_, ih h.2⟩
      intro hmem
      rcases (mem_mapKeys_mapSet m k v p.1).mp hmem with hm | he
      · exact h.1 hm
      · exact hpk he

lemma mapFind_eq_some_getD_of_mem (m : QMap) (c : String)
    (h : c ∈ mapKeys m) : mapFind m c = some (mapGetD m c) := by
  induction m with
  | nil => simp [mapKeys] at h
  | cons p m ih =>
    by_cases hpc : p.1 = c
    · simp [mapFind_cons, mapGetD_cons, hpc]
    · rw [mapKeys_cons, List.mem_cons] at h
      rcases h with h | h
      · exact absurd h.symm hpc
      · simp [mapFind_cons, mapGetD_cons, hpc, ih h]

/-! ### Summation lemmas for the raw per-code changes -/

lemma entriesChange_nil (c : String) : entriesChange [] c = 0 := rfl

lemma entriesChange_cons (e : JournalEntry) (es : List JournalEntry) (c : String) :
    entriesChange (e :: es) c
      = (if e.account_code = c then e.debit - e.credit else 0) + entriesChange es c := by
  by_cases h : e.account_code = c <;>
    simp [entriesChange, List.filter_cons, h]

lemma entriesChange_append (es₁ es₂ : List JournalEntry) (c : String) :
    entriesChange (es₁ ++ es₂) c = entriesChange es₁ c + entriesChange es₂ c := by
  simp [entriesChange, List.filter_append]

lemma entriesChange_eq_zero (es : List JournalEntry) (c : String)
    (h : ∀ e ∈ es, e.account_code ≠ c) : entriesChange es c = 0 := by
  induction es with
  | nil => rfl
  | cons e es ih =>
    rw [entriesChange_cons, if_neg (h e (List.mem_cons_self e es)), zero_add]
    exact ih (fun e' he' => h e' (List.mem_cons_of_mem e he'))

/-! ### The aggregator's map-building folds -/

lemma mapGetD_foldl_addEntryChange (es : List JournalEntry) :
    ∀ (m : QMap) (c : String),
      mapGetD (es.foldl addEntryChange m) c = mapGetD m c + entriesChange es c := by
  induction es with
  | nil => intro m c; simp [entriesChange_nil]
  | cons e es ih =>
    intro m c
    rw [List.foldl_cons, ih, entriesChange_cons]
    unfold addEntryChange
    rw [mapGetD_mapSet]
    by_cases h : e.account_code = c
    · subst h; simp; ring
    · simp [h]

lemma mem_mapKeys_foldl_addEntryChange (es : List JournalEntry) :
    ∀ (m : QMap) (c : String), c ∈ mapKeys m → c ∈ mapKeys (es.foldl addEntryChange m) := by
  induction es with
  | nil => intro m c h; exact h
  | cons e es ih =>
    intro m c h
    rw [List.foldl_cons]
    exact ih _ c ((mem_mapKeys_mapSet _ _ _ _).mpr (Or.inl h))

lemma mapGetD_foldl_addTxEntries (txs : List Transaction) :
    ∀ (m : QMap) (c : String),
      mapGetD (txs.foldl addTxEntries m) c = mapGetD m c + entriesChange (txsEntries txs) c := by
  induction txs with
  | nil => intro m c; simp [txsEntries, entriesChange_nil]
  | cons tx txs ih =>
    intro m c
    rw [List.foldl_cons, ih]
    show mapGetD (tx.entries.foldl addEntryChange m) c + _ = _
    rw [mapGetD_foldl_addEntryChange]
    have : txsEntries (tx :: txs) = tx.entries ++ txsEntries txs := by
      simp [txsEntries]
    rw [this, entriesChange_append]
    ring

lemma mem_mapKeys_foldl_addTxEntries (txs : List Transaction) :
    ∀ (m : QMap) (c : String), c ∈ mapKeys m → c ∈ mapKeys (txs.foldl addTxEntries m) := by
  induction txs with
  | nil => intro m c h; exact h
  | cons tx txs ih =>
    intro m c h
    rw [List.foldl_cons]
    exact ih _ c (mem_mapKeys_foldl_addEntryChange tx.entries m c h)

lemma mapGetD_mapInit (accounts : List Account) (c : String) :
    mapGetD (mapInit accounts) c = 0 := by
  suffices h : ∀ (l : List Account) (m : QMap), (∀ c', mapGetD m c' = 0) →
      mapGetD (l.foldl (fun m a => mapSet m a.code 0) m) c = 0 by
    exact h accounts [] (fun c' => rfl)
  intro l
  induction l with
  | nil => intro m hm; exact hm c
  | cons a l ih =>
    intro m hm
    rw [List.foldl_cons]
    refine ih _ (fun c' => ?_)
    rw [mapGetD_mapSet]
    by_cases h : a.code = c' <;> simp [h, hm]

lemma mem_mapKeys_mapInit (accounts : List Account) (a : Account)
    (ha : a ∈ accounts) : a.code ∈ mapKeys (mapInit accounts) := by
  suffices h : ∀ (l : List Account) (m : QMap), a ∈ l ∨ a.code ∈ mapKeys m →
      a.code ∈ mapKeys (l.foldl (fun m a => mapSet m a.code 0) m) by
    exact h accounts [] (Or.inl ha)
  intro l
  induction l with
  | nil =>
    intro m hm
    rcases hm with hm | hm
    · exact absurd hm (List.not_mem_nil a)
    · exact hm
  | cons x l ih =>
    intro m hm
    rw [List.foldl_cons]
    rcases hm with hm | hm
    · rcases List.mem_cons.mp hm with rfl | hm
      · exact ih _ (Or.inr ((mem_mapKeys_mapSet _ _ _ _).mpr (Or.inr rfl)))
      · exact ih _ (Or.inl hm)
    · exact ih _ (Or.inr ((mem_mapKeys_mapSet _ _ _ _).mpr (Or.inl hm)))

/-- The value of `periodChangesMap` at any code is the raw change over the
in-period entries. -/
lemma mapGetD_periodChangesMap (accounts : List Account) (txs : List Transaction)
    (period : Period) (c : String) :
    mapGetD (periodChangesMap accounts txs period) c
      = entriesChange (txsEntries (inPeriodTxs txs period)) c := by
  unfold periodChangesMap
  rw [mapGetD_foldl_addTxEntries, mapGetD_mapInit, zero_add]

/-- The value of `openingBalancesMap` at any code is the raw change over the
entries dated strictly before the period. -/
lemma mapGetD_openingBalancesMap (accounts : List Account) (txs : List Transaction)
    (period : Period) (c : String) :
    mapGetD (openingBalancesMap accounts txs period) c
      = entriesChange (txsEntries (beforeTxs txs period)) c := by
  unfold openingBalancesMap
  rw [mapGetD_foldl_addTxEntries, mapGetD_mapInit, zero_add]

/-- Generic characterisation of a fold that sets one value per account code. -/
lemma mapFind_foldl_setCodes (g : String → ℚ) (l : List Account) :
    ∀ (m : QMap) (c : String),
      mapFind (l.foldl (fun m a => mapSet m a.code (g a.code)) m) c
        = if c ∈ l.map (fun a => a.code) then some (g c) else mapFind m c := by
  induction l with
  | nil => intro m c; simp
  | cons a l ih =>
    intro m c
    rw [List.foldl_cons, ih]
    by_cases hcl : c ∈ l.map (fun a => a.code)
    · simp [hcl]
    · by_cases hac : a.code = c
      · subst hac
        simp [hcl, mapFind_mapSet]
      · simp [hcl, mapFind_mapSet, hac, Ne.symm hac]

lemma mapFind_closingOf (accounts : List Account) (ob pc : QMap) (c : String)
    (h : c ∈ accounts.map (fun a => a.code)) :
    mapFind (closingOf accounts ob pc) c = some (mapGetD ob c + mapGetD pc c) := by
  unfold closingOf
  rw [mapFind_foldl_setCodes (fun c => mapGetD ob c + mapGetD pc c) accounts [] c]
  simp [h]

lemma mapGetD_closingOf (accounts : List Account) (ob pc : QMap) (c : String)
    (h : c ∈ accounts.map (fun a => a.code)) :
    mapGetD (closingOf accounts ob pc) c = mapGetD ob c + mapGetD pc c := by
  simp [mapGetD, mapFind_closingOf accounts ob pc c h]

lemma mapFind_periodChangesMap_mem (accounts : List Account) (txs : List Transaction)
    (period : Period) (a : Account) (ha : a ∈ accounts) :
    mapFind (periodChangesMap accounts txs period) a.code
      = some (entriesChange (txsEntries (inPeriodTxs txs period)) a.code) := by
  have hk : a.code ∈ mapKeys (periodChangesMap accounts txs period) :=
    mem_mapKeys_foldl_addTxEntries _ _ _ (mem_mapKeys_mapInit accounts a ha)
  rw [mapFind_eq_some_getD_of_mem _ _ hk, mapGetD_periodChangesMap]

lemma mapFind_openingBalancesMap_mem (accounts : List Account) (txs : List Transaction)
    (period : Period) (a : Account) (ha : a ∈ accounts) :
    mapFind (openingBalancesMap accounts txs period) a.code
      = some (entriesChange (txsEntries (beforeTxs txs period)) a.code) := by
  have hk : a.code ∈ mapKeys (openingBalancesMap accounts txs period) :=
    mem_mapKeys_foldl_addTxEntries _ _ _ (mem_mapKeys_mapInit accounts a ha)
  rw [mapFind_eq_some_getD_of_mem _ _ hk, mapGetD_openingBalancesMap]

/-! ### String-order boundary facts -/

lemma charsLt_self (l : List Char) : charsLt l l = false := by
  induction l with
  | nil => rfl
  | cons a t ih => simp [charsLt, ih]

lemma strLt_self (s : String) : strLt s s = false := charsLt_self s.data

lemma strLe_self (s : String) : strLe s s = true := by
  simp [strLe, strLt_self]

/-! ### Mutation-applier lemmas -/

lemma filter_code_map_sum_cons (f : JournalEntry → ℚ) (e : JournalEntry)
    (es : List JournalEntry) (c : String) :
    ((List.filter (fun x => decide (x.account_code = c)) (e :: es)).map f).sum
      = (if e.account_code = c then f e else 0)
        + ((es.filter (fun x => decide (x.account_code = c))).map f).sum := by
  by_cases h : e.account_code = c <;> simp [List.filter_cons, h]

lemma mapGetD_foldl_addDeltaStep (accounts : List Account) (es : List JournalEntry) :
    ∀ (m : QMap) (c : String),
      mapGetD (es.foldl (addDeltaStep accounts) m) c
        = mapGetD m c
          + ((es.filter (fun x => decide (x.account_code = c))).map (deltaVal accounts)).sum := by
  induction es with
  | nil => intro m c; simp
  | cons e es ih =>
    intro m c
    rw [List.foldl_cons, ih, filter_code_map_sum_cons]
    have hstep : mapGetD (addDeltaStep accounts m e) c
        = mapGetD m c + (if e.account_code = c then deltaVal accounts e else 0) := by
      unfold addDeltaStep deltaVal
      cases hf : findAccount accounts e.account_code with
      | none => simp
      | some a =>
        rw [mapGetD_mapSet]
        by_cases h : e.account_code = c
        · subst h; simp
        · simp [h]
    rw [hstep]
    ring

lemma nodup_mapKeys_foldl_addDeltaStep (accounts : List Account) (es : List JournalEntry) :
    ∀ (m : QMap), (mapKeys m).Nodup → (mapKeys (es.foldl (addDeltaStep accounts) m)).Nodup := by
  induction es with
  | nil => intro m h; exact h
  | cons e es ih =>
    intro m h
    rw [List.foldl_cons]
    refine ih _ ?_
    unfold addDeltaStep
    cases findAccount accounts e.account_code with
    | none => exact h
    | some a => exact nodup_mapKeys_mapSet _ _ _ h

lemma nodup_mapKeys_creationDeltas (accounts : List Account) (es : List JournalEntry) :
    (mapKeys (creationDeltas accounts es)).Nodup := by
  refine nodup_mapKeys_foldl_addDeltaStep accounts es [] ?_
  simp [mapKeys]

lemma mapGetD_creationDeltas (accounts : List Account) (es : List JournalEntry) (c : String) :
    mapGetD (creationDeltas accounts es) c
      = ((es.filter (fun x => decide (x.account_code = c))).map (deltaVal accounts)).sum := by
  unfold creationDeltas
  rw [mapGetD_foldl_addDeltaStep]
  simp [mapGetD, mapFind]

lemma deltaSum_cons (q : String × ℚ) (m : QMap) (c : String) :
    deltaSum (q :: m) c = (if q.1 = c then q.2 else 0) + deltaSum m c := by
  by_cases h : q.1 = c <;> simp [deltaSum, List.filter_cons, h]

lemma deltaSum_eq_zero_of_not_mem (m : QMap) (c : String)
    (h : c ∉ mapKeys m) : deltaSum m c = 0 := by
  induction m with
  | nil => rfl
  | cons q m ih =>
    rw [mapKeys_cons, List.mem_cons] at h
    push_neg at h
    rw [deltaSum_cons, if_neg (fun he => h.1 he.symm), zero_add]
    exact ih h.2

lemma deltaSum_eq_getD (m : QMap) (c : String)
    (h : (mapKeys m).Nodup) : deltaSum m c = mapGetD m c := by
  induction m with
  | nil => rfl
  | cons q m ih =>
    rw [mapKeys_cons, List.nodup_cons] at h
    rw [deltaSum_cons, mapGetD_cons]
    by_cases hc : q.1 = c
    · subst hc
      rw [if_pos rfl, if_pos rfl, deltaSum_eq_zero_of_not_mem m q.1 h.1, add_zero]
    · rw [if_neg hc, if_neg hc, zero_add]
      exact ih h.2

lemma applyDeltas_eq (m : QMap) :
    ∀ (accounts : List Account),
      applyDeltas accounts m
        = accounts.map (fun a => { a with balance := a.balance + deltaSum m a.code }) := by
  induction m with
  | nil =>
    intro accounts
    show accounts = _
    have h : ∀ a ∈ accounts, a = ({ a with balance := a.balance + deltaSum [] a.code }) := by
      intro a _
      show a = { a with balance := a.balance + 0 }
      rw [add_zero]
    exact List.map_congr_left (fun a ha => (h a ha).symm) ▸ (List.map_id accounts).symm
  | cons q m ih =>
    intro accounts
    show applyDeltas (updateAccountBalance accounts q.1 q.2) m = _
    rw [ih]
    unfold updateAccountBalance
    rw [List.map_map]
    refine List.map_congr_left (fun a _ => ?_)
    by_cases h : a.code = q.1
    · simp only [Function.comp_apply, h, beq_self_eq_true, if_true]
      cases a with
      | mk id code name type balance description =>
        simp only [Account.mk.injEq, and_true, true_and]
        rw [deltaSum_cons, if_pos rfl]
        ring
    · have hb : (a.code == q.1) = false := by simp [h]
      have hd : deltaSum (q :: m) a.code = deltaSum m a.code := by
        rw [deltaSum_cons, if_neg (fun he => h he.symm), zero_add]
      simp only [Function.comp_apply, hb, Bool.false_eq_true, if_false]
      rw [hd]

lemma negMap_mapSet (m : QMap) (k : String) (v : ℚ) :
    negMap (mapSet m k v) = mapSet (negMap m) k (-v) := by
  induction m with
  | nil => rfl
  | cons q m ih =>
    by_cases h : q.1 = k
    · have hb : (q.1 == k) = true := by simp [h]
      simp [mapSet, negMap, hb]
    · have hb : (q.1 == k) = false := by simp [h]
      have h1 : mapSet (q :: m) k v = q :: mapSet m k v := by
        simp [mapSet, hb]
      have h2 : mapSet (negMap (q :: m)) k (-v) = (q.1, -q.2) :: mapSet (negMap m) k (-v) := by
        show mapSet ((q.1, -q.2) :: negMap m) k (-v) = _
        simp [mapSet, hb]
      rw [h1, h2]
      show (q.1, -q.2) :: negMap (mapSet m k v) = _
      rw [ih]

lemma mapGetD_negMap (m : QMap) (c : String) :
    mapGetD (negMap m) c = -(mapGetD m c) := by
  induction m with
  | nil => simp [negMap, mapGetD, mapFind]
  | cons q m ih =>
    show mapGetD ((q.1, -q.2) :: negMap m) c = _
    rw [mapGetD_cons, mapGetD_cons]
    by_cases h : q.1 = c <;> simp [h, ih]

lemma deltaSum_negMap (m : QMap) (c : String) :
    deltaSum (negMap m) c = -(deltaSum m c) := by
  induction m with
  | nil => simp [negMap, deltaSum]
  | cons q m ih =>
    show deltaSum ((q.1, -q.2) :: negMap m) c = _
    rw [deltaSum_cons, deltaSum_cons, ih]
    by_cases h : q.1 = c
    · simp [h]
      ring_nf
    · simp [h]

lemma delDeltaStep_negMap (accounts : List Account) (m : QMap) (e : JournalEntry) :
    delDeltaStep accounts (negMap m) e = negMap (addDeltaStep accounts m e) := by
  unfold delDeltaStep addDeltaStep
  cases hf : findAccount accounts e.account_code with
  | none => rfl
  | some a =>
    rw [negMap_mapSet, mapGetD_negMap]
    ring_nf

lemma foldl_delDeltaStep_negMap (accounts : List Account) (es : List JournalEntry) :
    ∀ (m : QMap),
      es.foldl (delDeltaStep accounts) (negMap m)
        = negMap (es.foldl (addDeltaStep accounts) m) := by
  induction es with
  | nil => intro m; rfl
  | cons e es ih =>
    intro m
    rw [List.foldl_cons, List.foldl_cons, delDeltaStep_negMap]
    exact ih _

lemma deletionDeltas_eq_negMap (accounts : List Account) (es : List JournalEntry) :
    deletionDeltas accounts es = negMap (creationDeltas accounts es) := by
  show es.foldl (delDeltaStep accounts) [] = _
  have h : ([] : QMap) = negMap [] := rfl
  rw [h, foldl_delDeltaStep_negMap]
  rfl

lemma findAccount_map_balance (accounts : List Account) (f : Account → ℚ) (c : String) :
    findAccount (accounts.map (fun a => { a with balance := f a })) c
      = (findAccount accounts c).map (fun a => { a with balance := f a }) := by
  unfold findAccount
  rw [List.find?_map]
  rfl

lemma addDeltaStep_applyDeltas (accounts : List Account) (ds : QMap) :
    addDeltaStep (applyDeltas accounts ds) = addDeltaStep accounts := by
  funext m e
  unfold addDeltaStep
  rw [applyDeltas_eq, findAccount_map_balance]
  cases hf : findAccount accounts e.account_code with
  | none => rfl
  | some a => rfl

lemma creationDeltas_applyDeltas (accounts : List Account) (ds : QMap)
    (es : List JournalEntry) :
    creationDeltas (applyDeltas accounts ds) es = creationDeltas accounts es := by
  unfold creationDeltas
  rw [addDeltaStep_applyDeltas]

lemma applyDeltas_negMap_cancel (accounts : List Account) (m : QMap) :
    applyDeltas (applyDeltas accounts m) (negMap m) = accounts := by
  rw [applyDeltas_eq, applyDeltas_eq, List.map_map]
  have h : ∀ a ∈ accounts,
      ((fun a => { a with balance := a.balance + deltaSum (negMap m) a.code }) ∘
        (fun a => { a with balance := a.balance + deltaSum m a.code })) a = a := by
    intro a _
    simp only [Function.comp_apply]
    cases a with
    | mk id code name type balance description =>
      simp only [Account.mk.injEq, and_true, true_and]
      rw [deltaSum_negMap]
      ring
  rw [List.map_congr_left h]
  simp

/-! ### Summation machinery for the accounting identity -/

lemma sum_ite_eq_mem (L : List String) (hnd : L.Nodup) (x : String) (w : ℚ) :
    (L.map (fun c => if x = c then w else 0)).sum = if x ∈ L then w else 0 := by
  induction L with
  | nil => simp
  | cons c L ih =>
    rw [List.nodup_cons] at hnd
    rw [List.map_cons, List.sum_cons, ih hnd.2]
    by_cases hxc : x = c
    · subst hxc
      simp [hnd.1]
    · simp [hxc, List.mem_cons]

lemma sum_entriesChange_nodup (L : List String) (hnd : L.Nodup) :
    ∀ (es : List JournalEntry),
      (L.map (fun c => entriesChange es c)).sum
        = ((es.filter (fun e => decide (e.account_code ∈ L))).map
            (fun e => e.debit - e.credit)).sum := by
  intro es
  induction es with
  | nil =>
    rw [List.filter_nil, List.map_nil, List.sum_nil]
    refine List.sum_eq_zero ?_
    intro x hx
    rcases List.mem_map.mp hx with ⟨c, _, rfl⟩
    rfl
  | cons e es ih =>
    have hpt : ∀ c ∈ L, entriesChange (e :: es) c
        = (if e.account_code = c then e.debit - e.credit else 0) + entriesChange es c :=
      fun c _ => entriesChange_cons e es c
    rw [List.map_congr_left hpt, List.sum_map_add, ih,
      sum_ite_eq_mem L hnd e.account_code (e.debit - e.credit)]
    by_cases h : e.account_code ∈ L <;>
      simp [List.filter_cons, h]

lemma sum_map_flatten (ll : List (List JournalEntry)) (f : JournalEntry → ℚ) :
    ((ll.flatten).map f).sum = (ll.map (fun es => (es.map f).sum)).sum := by
  induction ll with
  | nil => rfl
  | cons es ll ih =>
    simp [List.map_append, List.sum_append, ih]
    rfl

lemma sum_debit_sub_credit (es : List JournalEntry) :
    (es.map (fun e => e.debit - e.credit)).sum = sumDebits es - sumCredits es := by
  induction es with
  | nil => simp [sumDebits, sumCredits]
  | cons e es ih =>
    simp only [List.map_cons, List.sum_cons, sumDebits, sumCredits] at ih ⊢
    rw [ih]
    ring

/-- Splitting a sum over accounts into the five account types. -/
lemma sum_split_types (l : List Account) (g : Account → ℚ) :
    ((l.filter (fun a => decide (a.type = .aset))).map g).sum
      + ((l.filter (fun a => decide (a.type = .liabilitas))).map g).sum
      + ((l.filter (fun a => decide (a.type = .modal))).map g).sum
      + ((l.filter (fun a => decide (a.type = .pendapatan))).map g).sum
      + ((l.filter (fun a => decide (a.type = .beban))).map g).sum
    = (l.map g).sum := by
  induction l with
  | nil => simp
  | cons a l ih =>
    cases h : a.type <;>
      · simp only [List.filter_cons, h]
        simp
        rw [← ih]
        ring

/-- Adding `n` to the balance of every element whose code is `3200`
increases the balance sum by `n` times the number of such elements. -/
lemma sum_balance_update3200 (l : List Account) (n : ℚ) :
    ((l.map (fun a => if a.code == "3200" then { a with balance := a.balance + n } else a)).map
        (fun a => a.balance)).sum
      = (l.map (fun a => a.balance)).sum + (l.countP (fun a => a.code == "3200") : ℚ) * n := by
  induction l with
  | nil => simp
  | cons a l ih =>
    rw [List.map_cons, List.map_cons, List.sum_cons, List.map_cons, List.sum_cons, ih,
      List.countP_cons]
    by_cases h : a.code = "3200"
    · simp only [h, beq_self_eq_true, if_true]
      simp
      ring
    · have hb : (a.code == "3200") = false := by simp [h]
      simp only [hb, Bool.false_eq_true, if_false]
      simp
      ring

lemma countP_eq_one_of_code (l : List Account)
    (hnd : (l.map (fun a => a.code)).Nodup) (a0 : Account) (h0 : a0 ∈ l)
    (hc : a0.code = "3200") :
    l.countP (fun a => a.code == "3200") = 1 := by
  have h1 : List.count "3200" (l.map (fun a => a.code)) = 1 :=
    List.count_eq_one_of_mem hnd (List.mem_map.mpr ⟨a0, h0, hc⟩)
  rw [List.count_eq_countP, List.countP_map] at h1
  exact h1

lemma sum_map_neg (l : List Account) (f : Account → ℚ) :
    (l.map (fun x => -(f x))).sum = -((l.map f).sum) := by
  induction l with
  | nil => simp
  | cons x l ih =>
    simp [ih]
    ring

/-! ### Substring-prefix monotonicity -/

lemma charsPre_trans (p : List Char) :
    ∀ q r, charsPre p q = true → charsPre q r = true → charsPre p r = true := by
  induction p with
  | nil => intro q r _ _; rfl
  | cons a as ih =>
    intro q r h1 h2
    cases q with
    | nil => simp [charsPre] at h1
    | cons b bs =>
      cases r with
      | nil => simp [charsPre] at h2
      | cons c cs =>
        simp only [charsPre, Bool.and_eq_true, beq_iff_eq] at h1 h2 ⊢
        exact ⟨h1.1.trans h2.1, ih bs cs h1.2 h2.2⟩

lemma containsSub_mono (hay : List Char) :
    ∀ p q, charsPre p q = true → containsSub hay q = true → containsSub hay p = true := by
  induction hay with
  | nil =>
    intro p q hpre h
    simp only [containsSub, List.isEmpty_iff] at h
    subst h
    cases p with
    | nil => rfl
    | cons a as => simp [charsPre] at hpre
  | cons c t ih =>
    intro p q hpre h
    simp only [containsSub, Bool.or_eq_true] at h ⊢
    rcases h with h | h
    · exact Or.inl (charsPre_trans p q (c :: t) hpre h)
    · exact Or.inr (ih p q hpre h)

/-! ## Claims -/

/-- C3 (counterexample): for the Asset account named `Akumulasi Amortisasi
Lisensi` the Account Mutation Applier's contra-asset test is `false` (so the
applier treats it as debit-normal, e.g. a 100 credit moves its stored balance
by `-100`), yet `calculatePeriodFinancials` negates its contribution to
`totalAssets` (a 100 credit raises `totalAssets` by 100): the two
classifications are not the same set. -/
theorem contra_classification_mismatch :
    isContraAsset acctAmort = false
    ∧ (decide (acctAmort.type = .aset) && nameHas acctAmort.name "akumulasi") = true
    ∧ entryDelta acctAmort
        { id := none, transaction_id := none, account_code := "1701", debit := 0, credit := 100 }
        = -100
    ∧ totalAssets [acctAmort, acctBebanDep] [txAmort] perYear = 100 := by
  refine ⟨by decide, by decide, ?_, ?_⟩
  · have hcontra : isContraAsset acctAmort = false := by decide
    norm_num +decide [entryDelta, hcontra, acctAmort]
  · norm_num +decide [totalAssets, assetsList, closingBalancesMap, closingOf,
      openingBalancesMap, periodChangesMap, beforeTxs, inPeriodTxs, addTxEntries,
      addEntryChange, mapInit, mapSet, mapGetD, mapFind, acctAmort, acctBebanDep, txAmort,
      perYear]

/-- C3 (amended): every account the Account Mutation Applier classifies as
contra-asset (Asset type, lower-cased name containing `akumulasi penyusutan`)
is also in the set whose `totalAssets` contribution the aggregator negates
(Asset type, lower-cased name containing `akumulasi`); the converse fails, so
the applier's set is a subset, not the same set. -/
theorem contra_subset_negated (a : Account) (h : isContraAsset a = true) :
    decide (a.type = .aset) = true ∧ nameHas a.name "akumulasi" = true := by
  unfold isContraAsset at h
  simp only [Bool.and_eq_true] at h
  rcases h with ⟨h1, h2⟩
  refine ⟨h1, ?_⟩
  unfold nameHas at h2 ⊢
  exact containsSub_mono _ _ _ (by decide) h2

/-- C3 (witness): the default contra-asset account name is classified as
contra by the applier, hence negated by the aggregator. -/
theorem contra_subset_negated_witness :
    decide (acctAkum.type = .aset) = true ∧ nameHas acctAkum.name "akumulasi" = true :=
  contra_subset_negated acctAkum (by decide)

/-- C5: applying the Account Mutation Applier for a transaction's creation
and then for its deletion restores every account balance exactly: the
deletion delta map is the pointwise negation of the creation delta map
(re-derived from the same entries against the post-creation accounts), and
applying both leaves the account list unchanged. -/
theorem create_delete_inverse (accounts : List Account) (es : List JournalEntry) :
    deletionDeltas (applyDeltas accounts (creationDeltas accounts es)) es
        = negMap (creationDeltas accounts es)
    ∧ applyDeltas (applyDeltas accounts (creationDeltas accounts es))
        (deletionDeltas (applyDeltas accounts (creationDeltas accounts es)) es)
      = accounts := by
  have h1 : deletionDeltas (applyDeltas accounts (creationDeltas accounts es)) es
      = negMap (creationDeltas accounts es) := by
    rw [deletionDeltas_eq_negMap, creationDeltas_applyDeltas]
  refine ⟨h1, ?_⟩
  rw [h1]
  exact applyDeltas_negMap_cancel accounts _

/-- C4: on creation the Account Mutation Applier nets each account code's
entries into a single delta — the netted sum of `(debit - credit)` for a
debit-normal account, `(credit - debit)` otherwise — and issues exactly one
balance update per distinct code (the delta map's keys are duplicate-free),
each update adding the delta to the persisted balance. -/
theorem creation_netted_single_update (accounts : List Account) (es : List JournalEntry)
    (code : String) (a : Account) (hfind : findAccount accounts code = some a) :
    (mapKeys (creationDeltas accounts es)).Nodup
    ∧ mapGetD (creationDeltas accounts es) code = nettedDelta a es
    ∧ applyDeltas accounts (creationDeltas accounts es)
        = accounts.map (fun x =>
            { x with balance := x.balance + mapGetD (creationDeltas accounts es) x.code }) := by
  have hkeys := nodup_mapKeys_creationDeltas accounts es
  have hac : a.code = code := by
    unfold findAccount at hfind
    have hp := List.find?_some hfind
    exact beq_iff_eq.mp hp
  refine ⟨hkeys, ?_, ?_⟩
  · unfold nettedDelta
    rw [hac, mapGetD_creationDeltas]
    refine congrArg List.sum (List.map_congr_left ?_)
    intro e he
    have hcode : e.account_code = code :=
      of_decide_eq_true (List.mem_filter.mp he).2
    unfold deltaVal
    rw [hcode, hfind]
  · rw [applyDeltas_eq]
    refine List.map_congr_left ?_
    intro x _
    rw [deltaSum_eq_getD _ _ hkeys]

/-- C4 (witness): concrete creation deltas for the simple revenue
transaction. -/
theorem creation_netted_single_update_witness :
    (mapKeys (creationDeltas [acctKas, acctRev] txSimple.entries)).Nodup
    ∧ mapGetD (creationDeltas [acctKas, acctRev] txSimple.entries) "1200"
        = nettedDelta acctKas txSimple.entries
    ∧ applyDeltas [acctKas, acctRev] (creationDeltas [acctKas, acctRev] txSimple.entries)
        = [acctKas, acctRev].map (fun x =>
            { x with balance := x.balance
              + mapGetD (creationDeltas [acctKas, acctRev] txSimple.entries) x.code }) :=
  creation_netted_single_update [acctKas, acctRev] txSimple.entries "1200" acctKas
    (by norm_num +decide [findAccount, acctKas, acctRev])

/-- C7: for every account in the chart, the closing balance equals the
opening balance plus the period change. -/
theorem closing_additivity (accounts : List Account) (txs : List Transaction)
    (period : Period) (a : Account) (ha : a ∈ accounts) :
    mapGetD (closingBalancesMap accounts txs period) a.code
      = mapGetD (openingBalancesMap accounts txs period) a.code
        + mapGetD (periodChangesMap accounts txs period) a.code := by
  unfold closingBalancesMap
  exact mapGetD_closingOf _ _ _ _ (List.mem_map.mpr ⟨a, ha, rfl⟩)

/-- C7 (witness): additivity at the cash account of the simple scenario. -/
theorem closing_additivity_witness :
    mapGetD (closingBalancesMap [acctKas, acctRev] [txSimple] perYear) acctKas.code
      = mapGetD (openingBalancesMap [acctKas, acctRev] [txSimple] perYear) acctKas.code
        + mapGetD (periodChangesMap [acctKas, acctRev] [txSimple] perYear) acctKas.code :=
  closing_additivity [acctKas, acctRev] [txSimple] perYear acctKas
    (List.mem_cons_self acctKas [acctRev])

/-- C6: for every account of the chart, the period-change map holds exactly
the sum of `debit - credit` over that account's entries in transactions with
`start <= date <= end` (both bounds inclusive), the opening-balance map holds
the same sum over transactions dated strictly before `start`, and an account
touched by no entry is present with value `0` in all three maps rather than
absent. -/
theorem period_maps_formula (accounts : List Account) (txs : List Transaction)
    (period : Period) (a : Account) (ha : a ∈ accounts) :
    mapFind (periodChangesMap accounts txs period) a.code
        = some (entriesChange (txsEntries (inPeriodTxs txs period)) a.code)
    ∧ mapFind (openingBalancesMap accounts txs period) a.code
        = some (entriesChange (txsEntries (beforeTxs txs period)) a.code)
    ∧ (∀ tx ∈ txs, tx.date = period.start → strLe tx.date period.stop = true →
        tx ∈ inPeriodTxs txs period)
    ∧ (∀ tx ∈ txs, tx.date = period.stop → strLe period.start tx.date = true →
        tx ∈ inPeriodTxs txs period)
    ∧ (∀ tx ∈ txs, tx.date = period.start → tx ∉ beforeTxs txs period)
    ∧ ((∀ tx ∈ txs, ∀ e ∈ tx.entries, e.account_code ≠ a.code) →
        mapFind (periodChangesMap accounts txs period) a.code = some 0
        ∧ mapFind (openingBalancesMap accounts txs period) a.code = some 0
        ∧ mapFind (closingBalancesMap accounts txs period) a.code = some 0) := by
  have hchange : ∀ (l : List Transaction), (∀ tx ∈ l, tx ∈ txs) →
      (∀ tx ∈ txs, ∀ e ∈ tx.entries, e.account_code ≠ a.code) →
      entriesChange (txsEntries l) a.code = 0 := by
    intro l hsub h
    refine entriesChange_eq_zero _ _ ?_
    intro e he
    rcases List.mem_flatten.mp he with ⟨es, hes, hee⟩
    rcases List.mem_map.mp hes with ⟨tx, htx, rfl⟩
    exact h tx (hsub tx htx) e hee
  refine ⟨mapFind_periodChangesMap_mem accounts txs period a ha,
    mapFind_openingBalancesMap_mem accounts txs period a ha, ?_, ?_, ?_, ?_⟩
  · intro tx htx hd hle
    refine List.mem_filter.mpr ⟨htx, ?_⟩
    rw [hd] at hle ⊢
    rw [strLe_self]
    simpa using hle
  · intro tx htx hd hle
    refine List.mem_filter.mpr ⟨htx, ?_⟩
    rw [hd] at hle ⊢
    rw [strLe_self]
    simpa using hle
  · intro tx htx hd hmem
    have := (List.mem_filter.mp hmem).2
    rw [hd, strLt_self] at this
    exact Bool.false_ne_true this
  · intro h
    have hpc0 : entriesChange (txsEntries (inPeriodTxs txs period)) a.code = 0 :=
      hchange _ (fun tx htx => (List.mem_filter.mp htx).1) h
    have hob0 : entriesChange (txsEntries (beforeTxs txs period)) a.code = 0 :=
      hchange _ (fun tx htx => (List.mem_filter.mp htx).1) h
    refine ⟨by rw [mapFind_periodChangesMap_mem accounts txs period a ha, hpc0],
      by rw [mapFind_openingBalancesMap_mem accounts txs period a ha, hob0], ?_⟩
    unfold closingBalancesMap
    rw [mapFind_closingOf _ _ _ _ (List.mem_map.mpr ⟨a, ha, rfl⟩),
      mapGetD_openingBalancesMap, mapGetD_periodChangesMap, hpc0, hob0, add_zero]

/-- C6 (witness): the period-change entry of the cash account in the simple
scenario. -/
theorem period_maps_formula_witness :
    mapFind (periodChangesMap [acctKas, acctRev] [txSimple] perYear) acctKas.code
      = some (entriesChange (txsEntries (inPeriodTxs [txSimple] perYear)) acctKas.code) :=
  (period_maps_formula [acctKas, acctRev] [txSimple] perYear acctKas
    (List.mem_cons_self acctKas [acctRev])).1

lemma totalAssets_dep_scenario :
    totalAssets [acctPeralatan, acctAkum, acctBebanDep] [txDep] perYear = 100000 := by
  norm_num +decide [totalAssets, assetsList, closingBalancesMap, closingOf,
    openingBalancesMap, periodChangesMap, beforeTxs, inPeriodTxs, addTxEntries,
    addEntryChange, mapInit, mapSet, mapGetD, mapFind, acctPeralatan, acctAkum,
    acctBebanDep, txDep, perYear]

lemma totalAssets_dep_scenario_base :
    totalAssets [acctPeralatan, acctAkum, acctBebanDep] [] perYear = 0 := by
  norm_num +decide [totalAssets, assetsList, closingBalancesMap, closingOf,
    openingBalancesMap, periodChangesMap, beforeTxs, inPeriodTxs, addTxEntries,
    addEntryChange, mapInit, mapSet, mapGetD, mapFind, acctPeralatan, acctAkum,
    acctBebanDep, perYear]

/-- C2 (counterexample): in the contra-asset scenario (a transaction debiting
the depreciation expense and crediting the contra asset by 100,000),
`totalAssets` is exactly 100,000 HIGHER than in a run without that
transaction — not 100,000 lower as claimed: the contra account's raw closing
balance is −100,000 and the aggregator negates it. -/
theorem contra_scenario_raises_totalAssets :
    totalAssets [acctPeralatan, acctAkum, acctBebanDep] [txDep] perYear
        = totalAssets [acctPeralatan, acctAkum, acctBebanDep] [] perYear + 100000
    ∧ ¬ (totalAssets [acctPeralatan, acctAkum, acctBebanDep] [txDep] perYear
        = totalAssets [acctPeralatan, acctAkum, acctBebanDep] [] perYear - 100000) := by
  rw [totalAssets_dep_scenario, totalAssets_dep_scenario_base]
  norm_num

/-- C2 (amended): every Asset account appears in the report's `assets` list
with its raw closing balance as displayed balance, and `totalAssets` sums
those balances negating any asset whose lower-cased name contains
`akumulasi`; consequently, crediting a contra asset by 100,000 makes
`totalAssets` exactly 100,000 HIGHER than a run without that transaction
(the negation turns the −100,000 raw balance into +100,000). -/
theorem assets_display_and_contra_negation (accounts : List Account)
    (txs : List Transaction) (period : Period) (a : Account) (ha : a ∈ accounts)
    (ht : a.type = .aset) :
    ({ a with balance := mapGetD (closingBalancesMap accounts txs period) a.code }
        ∈ (calculatePeriodFinancials accounts txs period).assets)
    ∧ (calculatePeriodFinancials accounts txs period).totalAssets
        = ((accounts.filter (fun x => decide (x.type = .aset))).map
            (fun x => if nameHas x.name "akumulasi"
              then -(mapGetD (closingBalancesMap accounts txs period) x.code)
              else mapGetD (closingBalancesMap accounts txs period) x.code)).sum
    ∧ totalAssets [acctPeralatan, acctAkum, acctBebanDep] [txDep] perYear
        = totalAssets [acctPeralatan, acctAkum, acctBebanDep] [] perYear + 100000 := by
  refine ⟨?_, ?_, by rw [totalAssets_dep_scenario, totalAssets_dep_scenario_base]; norm_num⟩
  · show _ ∈ assetsList accounts txs period
    unfold assetsList
    exact List.mem_map.mpr ⟨a, List.mem_filter.mpr ⟨ha, by simp [ht]⟩, rfl⟩
  · show totalAssets accounts txs period = _
    unfold totalAssets assetsList
    rw [List.map_map]
    rfl

/-- C2 (witness): the cash account of the simple scenario appears in the
report's assets with its raw closing balance. -/
theorem assets_display_witness :
    { acctKas with
        balance := mapGetD (closingBalancesMap [acctKas, acctRev] [txSimple] perYear)
          acctKas.code }
      ∈ (calculatePeriodFinancials [acctKas, acctRev] [txSimple] perYear).assets :=
  (assets_display_and_contra_negation [acctKas, acctRev] [txSimple] perYear acctKas
    (List.mem_cons_self acctKas [acctRev]) rfl).1

/-- C8 (counterexample): `addTransactionsBatch` performs no balance
validation: handed an unbalanced entry list (debits 500,000, credits
400,000) it persists the transaction and applies a 500,000 delta to the cash
account, contradicting the claim that such a transaction is rejected before
any mutation. -/
theorem unbalanced_batch_persisted :
    sumDebits entriesUnbalanced ≠ sumCredits entriesUnbalanced
    ∧ (addTransactionsBatch [acctKas] [] batchUnbalanced).2.length = 1
    ∧ balanceOf (addTransactionsBatch [acctKas] [] batchUnbalanced).1 "1200"
        = some 500000 := by
  refine ⟨?_, ?_, ?_⟩
  · norm_num [sumDebits, sumCredits, entriesUnbalanced]
  · norm_num +decide [addTransactionsBatch, persistTx, creationDeltas, addDeltaStep,
      findAccount, entryDelta, isContraAsset, applyDeltas, updateAccountBalance,
      mapSet, mapGetD, mapFind, acctKas, batchUnbalanced, entriesUnbalanced]
  · norm_num +decide [addTransactionsBatch, persistTx, creationDeltas, addDeltaStep,
      findAccount, entryDelta, isContraAsset, applyDeltas, updateAccountBalance, balanceOf,
      mapSet, mapGetD, mapFind, acctKas, batchUnbalanced, entriesUnbalanced]

/-- C8 (amended): the interactive transaction form rejects a submission
whose totals are unbalanced or zero before any mutation (it never reaches
`addTransaction`); `addTransactionsBatch` itself, however, validates nothing
and persists whatever entries it is handed. -/
theorem form_rejects_unbalanced (entries : List JournalEntry)
    (h : sumDebits entries ≠ sumCredits entries ∨ sumDebits entries = 0) :
    handleSubmitCreate entries = none := by
  have hb : formIsBalanced entries = false := by
    unfold formIsBalanced
    have hd : formTotalDebit entries = sumDebits entries := rfl
    have hc : formTotalCredit entries = sumCredits entries := rfl
    rw [hd, hc]
    rcases h with h | h
    · simp [h]
    · simp [h]
  unfold handleSubmitCreate
  rw [hb]
  simp

/-- C8 (witness): the unbalanced entry list is rejected by the form. -/
theorem form_rejects_unbalanced_witness :
    handleSubmitCreate entriesUnbalanced = none :=
  form_rejects_unbalanced entriesUnbalanced
    (Or.inl (by norm_num [sumDebits, sumCredits, entriesUnbalanced]))

/-- C9 (counterexample): creating a plain cash account (`Kas`, Asset) with
requested opening balance 500 leaves its persisted balance at `0`, not 500:
the seeding deltas are resolved against the pre-insert accounts snapshot,
which does not contain the just-created account, so its entry is skipped and
no balance update is ever issued for it. -/
theorem seeding_balance_stays_zero :
    balanceOf (addAccount [] "1100" "Kas" .aset "" 500 "2024-05-01").1 "1100" = some 0
    ∧ ¬ (balanceOf (addAccount [] "1100" "Kas" .aset "" 500 "2024-05-01").1 "1100"
        = some 500) := by
  have h : balanceOf (addAccount [] "1100" "Kas" .aset "" 500 "2024-05-01").1 "1100"
      = some 0 := by
    norm_num +decide [addAccount, seedEntries, seedFirst, seedSecond, creationDeltas,
      addDeltaStep, findAccount, entryDelta, isContraAsset, applyDeltas,
      updateAccountBalance, balanceOf, mapSet, mapGetD, mapFind]
  refine ⟨h, ?_⟩
  rw [h]
  intro hc
  have := Option.some.inj hc
  norm_num at this

lemma seedEntries_balanced (newAcct : Account) (op : ℚ) :
    sumDebits (seedEntries newAcct op) = sumCredits (seedEntries newAcct op) := by
  rcases htype : newAcct.type with _ | _ | _ | _ | _ <;>
    simp [seedEntries, seedFirst, seedSecond, sumDebits, sumCredits, htype]

lemma seeding_core (accounts : List Account) (newAcct : Account) (op : ℚ)
    (hbal : newAcct.balance = 0)
    (hfresh : ∀ a ∈ accounts, a.code ≠ newAcct.code) :
    balanceOf
        (applyDeltas (accounts ++ [newAcct])
          (creationDeltas accounts (seedEntries newAcct op)))
        newAcct.code
      = some 0 := by
  have hnone : findAccount accounts newAcct.code = none := by
    unfold findAccount
    exact List.find?_eq_none.mpr (fun a ha => by simp [hfresh a ha])
  have hfind1 : findAccount (accounts ++ [newAcct]) newAcct.code = some newAcct := by
    unfold findAccount
    unfold findAccount at hnone
    rw [List.find?_append, hnone]
    simp
  unfold balanceOf
  rw [applyDeltas_eq, findAccount_map_balance, hfind1]
  show some (newAcct.balance
    + deltaSum (creationDeltas accounts (seedEntries newAcct op)) newAcct.code)
    = some 0
  rw [hbal, zero_add,
    deltaSum_eq_getD _ _ (nodup_mapKeys_creationDeltas _ _), mapGetD_creationDeltas]
  refine congrArg some (List.sum_eq_zero ?_)
  intro x hx
  rcases List.mem_map.mp hx with ⟨e, hef, rfl⟩
  have hcode : e.account_code = newAcct.code :=
    of_decide_eq_true (List.mem_filter.mp hef).2
  unfold deltaVal
  rw [hcode, hnone]

/-- C9 (amended): for a fresh account code, a nonzero requested opening
balance makes `addAccount` synthesize exactly one balanced two-entry
transaction dated today — the new account on its normal side first and the
reserved counter-account `3999` on the opposite side — but the persisted
balance of the new account afterwards REMAINS `0`, not the requested value:
the Account Mutation Applier resolves entries against the pre-insert
accounts snapshot, which does not yet contain the new account, so the new
account entry is skipped and no balance update is issued for its code. -/
theorem opening_balance_seeding (accounts : List Account)
    (code name description : String) (type : AccountType) (op : ℚ) (today : String)
    (hop : op ≠ 0)
    (hfresh : ∀ a ∈ accounts, a.code ≠ code) :
    ∃ tx, (addAccount accounts code name type description op today).2 = [tx]
      ∧ tx.date = today
      ∧ tx.entries.length = 2
      ∧ tx.entries.map (fun e => e.account_code) = [code, "3999"]
      ∧ sumDebits tx.entries = sumCredits tx.entries
      ∧ balanceOf (addAccount accounts code name type description op today).1 code
          = some 0 := by
  simp only [addAccount, if_neg hop]
  refine ⟨_, rfl, rfl, rfl, rfl, seedEntries_balanced _ op, ?_⟩
  exact seeding_core accounts
    { id := none, code := code, name := name, type := type, balance := 0,
      description := description } op rfl hfresh

/-- C9 (witness): seeding a revenue account with opening balance 750 — the
transaction is synthesized but the balance stays 0. -/
theorem opening_balance_seeding_witness :
    ∃ tx, (addAccount [] "4200" "Pendapatan Lain" .pendapatan "" 750 "2024-05-01").2 = [tx]
      ∧ tx.date = "2024-05-01"
      ∧ tx.entries.length = 2
      ∧ tx.entries.map (fun e => e.account_code) = ["4200", "3999"]
      ∧ sumDebits tx.entries = sumCredits tx.entries
      ∧ balanceOf (addAccount [] "4200" "Pendapatan Lain" .pendapatan "" 750 "2024-05-01").1
          "4200" = some 0 :=
  opening_balance_seeding [] "4200" "Pendapatan Lain" "" .pendapatan 750 "2024-05-01"
    (by norm_num) (by simp)

lemma entriesChange_drop_entry (es₁ es₂ : List JournalEntry) (e0 : JournalEntry)
    (c : String) (h : e0.account_code ≠ c) :
    entriesChange (es₁ ++ e0 :: es₂) c = entriesChange (es₁ ++ es₂) c := by
  rw [entriesChange_append, entriesChange_append, entriesChange_cons, if_neg h, zero_add]

lemma entriesChange_filter_middle (p : Transaction → Bool) (txs₁ txs₂ : List Transaction)
    (t1 t2 : Transaction) (hp : p t1 = p t2) (c : String)
    (hch : entriesChange t1.entries c = entriesChange t2.entries c) :
    entriesChange (txsEntries ((txs₁ ++ t1 :: txs₂).filter p)) c
      = entriesChange (txsEntries ((txs₁ ++ t2 :: txs₂).filter p)) c := by
  rw [List.filter_append, List.filter_append, List.filter_cons, List.filter_cons, ← hp]
  by_cases h : p t1 = true
  · rw [if_pos h, if_pos h]
    unfold txsEntries
    simp only [List.map_append, List.flatten_append, List.map_cons, List.flatten_cons]
    rw [entriesChange_append, entriesChange_append, entriesChange_append,
      entriesChange_append, hch]
  · rw [if_neg h, if_neg h]

lemma mapGetD_periodChangesMap_middle (accounts : List Account)
    (txs₁ txs₂ : List Transaction) (t1 t2 : Transaction) (period : Period)
    (hd : t1.date = t2.date) (c : String)
    (hch : entriesChange t1.entries c = entriesChange t2.entries c) :
    mapGetD (periodChangesMap accounts (txs₁ ++ t1 :: txs₂) period) c
      = mapGetD (periodChangesMap accounts (txs₁ ++ t2 :: txs₂) period) c := by
  rw [mapGetD_periodChangesMap, mapGetD_periodChangesMap]
  unfold inPeriodTxs
  refine entriesChange_filter_middle _ txs₁ txs₂ t1 t2 ?_ c hch
  rw [hd]

lemma mapGetD_openingBalancesMap_middle (accounts : List Account)
    (txs₁ txs₂ : List Transaction) (t1 t2 : Transaction) (period : Period)
    (hd : t1.date = t2.date) (c : String)
    (hch : entriesChange t1.entries c = entriesChange t2.entries c) :
    mapGetD (openingBalancesMap accounts (txs₁ ++ t1 :: txs₂) period) c
      = mapGetD (openingBalancesMap accounts (txs₁ ++ t2 :: txs₂) period) c := by
  rw [mapGetD_openingBalancesMap, mapGetD_openingBalancesMap]
  unfold beforeTxs
  refine entriesChange_filter_middle _ txs₁ txs₂ t1 t2 ?_ c hch
  rw [hd]

/-- C10: an entry whose account code matches no account in the chart is
silently skipped on both sides, entry by entry: removing a single
unknown-code entry from any transaction of the list — even one that also
carries entries over known accounts — leaves the entire report of
`calculatePeriodFinancials` unchanged, and such an entry inside a created
transaction contributes no delta to the Account Mutation Applier update
map. -/
theorem unknown_code_skipped (accounts : List Account) (txs₁ txs₂ : List Transaction)
    (tx0 : Transaction) (period : Period) (es₁ es₂ : List JournalEntry) (e0 : JournalEntry)
    (h2 : ∀ a ∈ accounts, a.code ≠ e0.account_code) :
    calculatePeriodFinancials accounts
        (txs₁ ++ { tx0 with entries := es₁ ++ e0 :: es₂ } :: txs₂) period
      = calculatePeriodFinancials accounts
        (txs₁ ++ { tx0 with entries := es₁ ++ es₂ } :: txs₂) period
    ∧ creationDeltas accounts (es₁ ++ e0 :: es₂) = creationDeltas accounts (es₁ ++ es₂) := by
  constructor
  · have hcode : ∀ a ∈ accounts, e0.account_code ≠ a.code :=
      fun a ha => (h2 a ha).symm
    set T1 : List Transaction :=
      txs₁ ++ ({ tx0 with entries := es₁ ++ e0 :: es₂ } : Transaction) :: txs₂ with hT1
    set T2 : List Transaction :=
      txs₁ ++ ({ tx0 with entries := es₁ ++ es₂ } : Transaction) :: txs₂ with hT2
    have hch : ∀ c, e0.account_code ≠ c →
        entriesChange (({ tx0 with entries := es₁ ++ e0 :: es₂ } : Transaction).entries) c
          = entriesChange (({ tx0 with entries := es₁ ++ es₂ } : Transaction).entries) c := by
      intro c hc
      show entriesChange (es₁ ++ e0 :: es₂) c = entriesChange (es₁ ++ es₂) c
      exact entriesChange_drop_entry es₁ es₂ e0 c hc
    have hpc : ∀ a ∈ accounts,
        mapGetD (periodChangesMap accounts T1 period) a.code
          = mapGetD (periodChangesMap accounts T2 period) a.code := by
      intro a ha
      rw [hT1, hT2]
      exact mapGetD_periodChangesMap_middle accounts txs₁ txs₂
        { tx0 with entries := es₁ ++ e0 :: es₂ } { tx0 with entries := es₁ ++ es₂ }
        period rfl a.code (hch a.code (hcode a ha))
    have hob : ∀ a ∈ accounts,
        mapGetD (openingBalancesMap accounts T1 period) a.code
          = mapGetD (openingBalancesMap accounts T2 period) a.code := by
      intro a ha
      rw [hT1, hT2]
      exact mapGetD_openingBalancesMap_middle accounts txs₁ txs₂
        { tx0 with entries := es₁ ++ e0 :: es₂ } { tx0 with entries := es₁ ++ es₂ }
        period rfl a.code (hch a.code (hcode a ha))
    have hcb : ∀ a ∈ accounts,
        mapGetD (closingBalancesMap accounts T1 period) a.code
          = mapGetD (closingBalancesMap accounts T2 period) a.code := by
      intro a ha
      unfold closingBalancesMap
      rw [mapGetD_closingOf _ _ _ _ (List.mem_map.mpr ⟨a, ha, rfl⟩),
        mapGetD_closingOf _ _ _ _ (List.mem_map.mpr ⟨a, ha, rfl⟩), hpc a ha, hob a ha]
    have hrev : revenuesList accounts T1 period = revenuesList accounts T2 period := by
      unfold revenuesList
      refine List.map_congr_left ?_
      intro a hafil
      rw [hpc a (List.mem_filter.mp hafil).1]
    have hexp : expensesList accounts T1 period = expensesList accounts T2 period := by
      unfold expensesList
      refine List.map_congr_left ?_
      intro a hafil
      rw [hpc a (List.mem_filter.mp hafil).1]
    have hass : assetsList accounts T1 period = assetsList accounts T2 period := by
      unfold assetsList
      refine List.map_congr_left ?_
      intro a hafil
      rw [hcb a (List.mem_filter.mp hafil).1]
    have hliab : liabilitiesList accounts T1 period
        = liabilitiesList accounts T2 period := by
      unfold liabilitiesList
      refine List.map_congr_left ?_
      intro a hafil
      rw [hcb a (List.mem_filter.mp hafil).1]
    have heq : equityList accounts T1 period = equityList accounts T2 period := by
      unfold equityList
      refine List.map_congr_left ?_
      intro a hafil
      rw [hcb a (List.mem_filter.mp hafil).1]
    have hTR : totalRevenue accounts T1 period = totalRevenue accounts T2 period := by
      unfold totalRevenue
      rw [hrev]
    have hTX : totalExpense accounts T1 period = totalExpense accounts T2 period := by
      unfold totalExpense
      rw [hexp]
    have hNI : netIncome accounts T1 period = netIncome accounts T2 period := by
      unfold netIncome
      rw [hTR, hTX]
    have heqpl : equityWithPLList accounts T1 period
        = equityWithPLList accounts T2 period := by
      unfold equityWithPLList
      rw [heq, hNI]
    have hTA : totalAssets accounts T1 period = totalAssets accounts T2 period := by
      unfold totalAssets
      rw [hass]
    have hTL : totalLiabilities accounts T1 period
        = totalLiabilities accounts T2 period := by
      unfold totalLiabilities
      rw [hliab]
    have hTE : totalEquity accounts T1 period = totalEquity accounts T2 period := by
      unfold totalEquity
      rw [heq]
    have hTEPL : totalEquityWithPL accounts T1 period
        = totalEquityWithPL accounts T2 period := by
      unfold totalEquityWithPL
      rw [heqpl]
    have hTLE : totalLiabilitiesAndEquity accounts T1 period
        = totalLiabilitiesAndEquity accounts T2 period := by
      unfold totalLiabilitiesAndEquity
      rw [hTL, hTEPL]
    have hcashmem : ∀ c ∈ cashAccountCodes accounts, ∃ a ∈ accounts, a.code = c := by
      intro c hc
      rcases List.mem_map.mp hc with ⟨a, hafil, rfl⟩
      exact ⟨a, (List.mem_filter.mp hafil).1, rfl⟩
    have hstart : ((cashAccountCodes accounts).map
          (fun c => mapGetD (openingBalancesMap accounts T1 period) c)).sum
        = ((cashAccountCodes accounts).map
          (fun c => mapGetD (openingBalancesMap accounts T2 period) c)).sum := by
      refine congrArg List.sum (List.map_congr_left ?_)
      intro c hc
      rcases hcashmem c hc with ⟨a, ha, rfl⟩
      exact hob a ha
    have hend : ((cashAccountCodes accounts).map
          (fun c => mapGetD (closingBalancesMap accounts T1 period) c)).sum
        = ((cashAccountCodes accounts).map
          (fun c => mapGetD (closingBalancesMap accounts T2 period) c)).sum := by
      refine congrArg List.sum (List.map_congr_left ?_)
      intro c hc
      rcases hcashmem c hc with ⟨a, ha, rfl⟩
      exact hcb a ha
    simp only [calculatePeriodFinancials]
    rw [hrev, hexp, hass, hliab, heq, heqpl, hTR, hTX, hNI, hTA, hTL, hTE, hTEPL, hTLE,
      hstart, hend]
  · unfold creationDeltas
    have hnone : findAccount accounts e0.account_code = none := by
      unfold findAccount
      exact List.find?_eq_none.mpr (fun a ha => by simp [h2 a ha])
    have hstep : ∀ m, addDeltaStep accounts m e0 = m := by
      intro m
      unfold addDeltaStep
      rw [hnone]
    rw [List.foldl_append, List.foldl_append, List.foldl_cons, hstep]

/-- C10 (witness): dropping the unknown-code entry `9999` from a transaction
that also debits the known cash account leaves the report unchanged, and the
entry contributes no creation delta. -/
theorem unknown_code_skipped_witness :
    calculatePeriodFinancials [acctKas]
        ([] ++ { txSimple with entries := txSimple.entries ++ entryUnknown :: [] } :: []) perYear
      = calculatePeriodFinancials [acctKas]
        ([] ++ { txSimple with entries := txSimple.entries ++ [] } :: []) perYear
    ∧ creationDeltas [acctKas] (txSimple.entries ++ entryUnknown :: [])
        = creationDeltas [acctKas] (txSimple.entries ++ []) :=
  unknown_code_skipped [acctKas] [] [] txSimple perYear txSimple.entries [] entryUnknown
    (by decide)

/-- C1 (counterexample): with a chart consisting only of a cash asset and a
revenue account — no Modal account with the reserved code `3200` — a single
individually balanced transaction makes `totalAssets = 1000000` while
`totalLiabilitiesAndEquity = 0` (net income is added only to a `3200`
account), so `isBalanced` is `false` even though every transaction is
balanced. -/
theorem identity_fails_without_retained_earnings :
    (∀ tx ∈ [txSimple], sumDebits tx.entries = sumCredits tx.entries)
    ∧ (calculatePeriodFinancials [acctKas, acctRev] [txSimple] perYear).isBalanced = false := by
  constructor
  · intro tx htx
    have h : tx = txSimple := by simpa using htx
    subst h
    norm_num [sumDebits, sumCredits, txSimple]
  · norm_num +decide [calculatePeriodFinancials, revenuesList, expensesList, totalRevenue,
      totalExpense, netIncome, assetsList, liabilitiesList, equityList, equityWithPLList,
      totalAssets, totalLiabilities, totalEquity, totalEquityWithPL,
      totalLiabilitiesAndEquity, periodChangesMap, openingBalancesMap, closingBalancesMap,
      closingOf, beforeTxs, inPeriodTxs, addTxEntries, addEntryChange, mapInit, mapSet,
      mapGetD, mapFind, acctKas, acctRev, txSimple, perYear]

/-- C1 (amended): the accounting identity
`totalAssets = totalLiabilities + totalEquityWithPL` (hence `isBalanced`)
holds for every chart and transaction list in which (i) every transaction is
individually balanced, (ii) every entry references a code present in the
chart, (iii) account codes are duplicate-free, (iv) no Asset account name
contains `akumulasi` (the contra-asset negation breaks the identity), (v) a
Modal account with the reserved code `3200` exists to absorb net income, and
(vi) no transaction predates the period start (prior-period revenue/expense
balances are otherwise never rolled into equity). -/
theorem accounting_identity (accounts : List Account) (txs : List Transaction)
    (period : Period)
    (hBal : ∀ tx ∈ txs, sumDebits tx.entries = sumCredits tx.entries)
    (hKnown : ∀ tx ∈ txs, ∀ e ∈ tx.entries,
      e.account_code ∈ accounts.map (fun a => a.code))
    (hNodup : (accounts.map (fun a => a.code)).Nodup)
    (hContra : ∀ a ∈ accounts, a.type = .aset → nameHas a.name "akumulasi" = false)
    (h3200 : ∃ a ∈ accounts, a.code = "3200" ∧ a.type = .modal)
    (hDates : ∀ tx ∈ txs, strLt tx.date period.start = false) :
    totalAssets accounts txs period = totalLiabilitiesAndEquity accounts txs period
    ∧ (calculatePeriodFinancials accounts txs period).isBalanced = true := by
  have hbe : beforeTxs txs period = [] := by
    unfold beforeTxs
    exact List.filter_eq_nil_iff.mpr (fun tx htx => by simp [hDates tx htx])
  have hob : ∀ c, mapGetD (openingBalancesMap accounts txs period) c = 0 := by
    intro c
    rw [mapGetD_openingBalancesMap, hbe]
    rfl
  have hcb : ∀ a ∈ accounts, mapGetD (closingBalancesMap accounts txs period) a.code
      = entriesChange (txsEntries (inPeriodTxs txs period)) a.code := by
    intro a ha
    unfold closingBalancesMap
    rw [mapGetD_closingOf _ _ _ _ (List.mem_map.mpr ⟨a, ha, rfl⟩), hob, zero_add,
      mapGetD_periodChangesMap]
  have hTR : totalRevenue accounts txs period
      = -(((accounts.filter (fun a => decide (a.type = .pendapatan))).map
          (fun a => entriesChange (txsEntries (inPeriodTxs txs period)) a.code)).sum) := by
    unfold totalRevenue revenuesList
    rw [List.map_map, ← sum_map_neg]
    refine congrArg List.sum (List.map_congr_left ?_)
    intro a _
    show -(mapGetD (periodChangesMap accounts txs period) a.code) = _
    rw [mapGetD_periodChangesMap]
  have hTX : totalExpense accounts txs period
      = ((accounts.filter (fun a => decide (a.type = .beban))).map
          (fun a => entriesChange (txsEntries (inPeriodTxs txs period)) a.code)).sum := by
    unfold totalExpense expensesList
    rw [List.map_map]
    refine congrArg List.sum (List.map_congr_left ?_)
    intro a _
    show mapGetD (periodChangesMap accounts txs period) a.code = _
    rw [mapGetD_periodChangesMap]
  have hTA : totalAssets accounts txs period
      = ((accounts.filter (fun a => decide (a.type = .aset))).map
          (fun a => entriesChange (txsEntries (inPeriodTxs txs period)) a.code)).sum := by
    unfold totalAssets assetsList
    rw [List.map_map]
    refine congrArg List.sum (List.map_congr_left ?_)
    intro a hafil
    have ha : a ∈ accounts := (List.mem_filter.mp hafil).1
    have ht : a.type = .aset := of_decide_eq_true (List.mem_filter.mp hafil).2
    show (if nameHas a.name "akumulasi" = true
        then -(mapGetD (closingBalancesMap accounts txs period) a.code)
        else mapGetD (closingBalancesMap accounts txs period) a.code) = _
    rw [hContra a ha ht]
    simp only [Bool.false_eq_true, if_false]
    exact hcb a ha
  have hTL : totalLiabilities accounts txs period
      = -(((accounts.filter (fun a => decide (a.type = .liabilitas))).map
          (fun a => entriesChange (txsEntries (inPeriodTxs txs period)) a.code)).sum) := by
    unfold totalLiabilities liabilitiesList
    rw [List.map_map, ← sum_map_neg]
    refine congrArg List.sum (List.map_congr_left ?_)
    intro a hafil
    show -(mapGetD (closingBalancesMap accounts txs period) a.code) = _
    rw [hcb a (List.mem_filter.mp hafil).1]
  have hTE : totalEquity accounts txs period
      = -(((accounts.filter (fun a => decide (a.type = .modal))).map
          (fun a => entriesChange (txsEntries (inPeriodTxs txs period)) a.code)).sum) := by
    unfold totalEquity equityList
    rw [List.map_map, ← sum_map_neg]
    refine congrArg List.sum (List.map_congr_left ?_)
    intro a hafil
    show -(mapGetD (closingBalancesMap accounts txs period) a.code) = _
    rw [hcb a (List.mem_filter.mp hafil).1]
  have hcount : (equityList accounts txs period).countP (fun a => a.code == "3200") = 1 := by
    unfold equityList
    rw [List.countP_map]
    show (accounts.filter (fun a => decide (a.type = .modal))).countP
      (fun a => a.code == "3200") = 1
    rw [List.countP_filter]
    obtain ⟨a0, ha0, hc0, ht0⟩ := h3200
    have hcongr : ∀ a ∈ accounts,
        ((fun a => (a.code == "3200") && decide (a.type = .modal)) a = true
          ↔ (fun a => a.code == "3200") a = true) := by
      intro a ha
      simp only [Bool.and_eq_true, beq_iff_eq, decide_eq_true_eq]
      constructor
      · exact fun h => h.1
      · intro hc
        have haa0 : a = a0 := List.inj_on_of_nodup_map hNodup ha ha0 (by rw [hc, hc0])
        exact ⟨hc, by rw [haa0, ht0]⟩
    rw [List.countP_congr hcongr]
    exact countP_eq_one_of_code accounts hNodup a0 ha0 hc0
  have hTEPL : totalEquityWithPL accounts txs period
      = totalEquity accounts txs period + netIncome accounts txs period := by
    unfold totalEquityWithPL equityWithPLList
    rw [sum_balance_update3200, hcount]
    show totalEquity accounts txs period + _ = _
    norm_num
  have hzero : (accounts.map
      (fun a => entriesChange (txsEntries (inPeriodTxs txs period)) a.code)).sum = 0 := by
    have h1 : accounts.map
          (fun a => entriesChange (txsEntries (inPeriodTxs txs period)) a.code)
        = (accounts.map (fun a => a.code)).map
          (fun c => entriesChange (txsEntries (inPeriodTxs txs period)) c) := by
      rw [List.map_map]
      rfl
    rw [h1, sum_entriesChange_nodup _ hNodup]
    have hfull : (txsEntries (inPeriodTxs txs period)).filter
          (fun e => decide (e.account_code ∈ accounts.map (fun a => a.code)))
        = txsEntries (inPeriodTxs txs period) := by
      refine List.filter_eq_self.mpr ?_
      intro e he
      rcases List.mem_flatten.mp he with ⟨es', hes', hee⟩
      rcases List.mem_map.mp hes' with ⟨tx, htx, rfl⟩
      exact decide_eq_true (hKnown tx (List.mem_filter.mp htx).1 e hee)
    rw [hfull]
    unfold txsEntries
    rw [sum_map_flatten, List.map_map]
    refine List.sum_eq_zero ?_
    intro x hx
    rcases List.mem_map.mp hx with ⟨tx, htx, rfl⟩
    show ((tx.entries).map (fun e => e.debit - e.credit)).sum = 0
    rw [sum_debit_sub_credit, hBal tx (List.mem_filter.mp htx).1, sub_self]
  have hsplit := sum_split_types accounts
    (fun a => entriesChange (txsEntries (inPeriodTxs txs period)) a.code)
  rw [hzero] at hsplit
  have hNI : netIncome accounts txs period
      = -(((accounts.filter (fun a => decide (a.type = .pendapatan))).map
          (fun a => entriesChange (txsEntries (inPeriodTxs txs period)) a.code)).sum)
        - ((accounts.filter (fun a => decide (a.type = .beban))).map
          (fun a => entriesChange (txsEntries (inPeriodTxs txs period)) a.code)).sum := by
    unfold netIncome
    rw [hTR, hTX]
  have hmain : totalAssets accounts txs period
      - totalLiabilitiesAndEquity accounts txs period = 0 := by
    unfold totalLiabilitiesAndEquity
    rw [hTA, hTL, hTEPL, hTE, hNI]
    linarith [hsplit]
  refine ⟨sub_eq_zero.mp hmain, ?_⟩
  show (calculatePeriodFinancials accounts txs period).isBalanced = true
  simp only [calculatePeriodFinancials]
  rw [decide_eq_true_eq, hmain]
  norm_num

/-- C1 (witness): a five-type chart including the `3200` retained-earnings
account balances for the simple in-period revenue transaction. -/
theorem accounting_identity_witness :
    (calculatePeriodFinancials [acctKas, acctLiab, acctModal, acctRev, acctBeban]
      [txSimple] perYear).isBalanced = true :=
  (accounting_identity [acctKas, acctLiab, acctModal, acctRev, acctBeban] [txSimple] perYear
    (by
      intro tx htx
      have h : tx = txSimple := by simpa using htx
      subst h
      norm_num [sumDebits, sumCredits, txSimple])
    (by decide) (by decide) (by decide) (by decide) (by decide)).2

end Finance
